import Mathlib

/-! sshmgr: the host registry, alias resolution and the authentication gate.

A shallow embedding of `pkg/config/config.go`, `pkg/cli/helpers.go` and
`pkg/cli/commands.go`. Go methods that mutate their receiver and return an
error become functions returning the new receiver together with the error
(`none` for a nil error). The reader/writer lock and the path of the
configuration file play no part in the sequential behaviour and are left out.
-/

set_option linter.dupNamespace false

namespace Sshmgr

/-! ## pkg/config -/

/-- Go type `config.Host`: one stored SSH host. -/
structure Host where
  ID : String
  Alias : String
  Host : String
  User : String
  Password : String
  Port : Int
  CreatedAt : String
  UpdatedAt : String
deriving DecidableEq, Repr

/-- The two error values of package config. -/
inductive ConfigError where
  | ErrHostNotFound
  | ErrAliasExists
deriving DecidableEq, Repr

/-- Go type `config.Config`, without the lock and the file path. -/
structure Config where
  Version : String
  MasterHash : String
  Hosts : List Host
deriving DecidableEq, Repr

/-- Go `NewConfig`: version 1.0, no master hash, no hosts. -/
def NewConfig : Config :=
  { Version := "1.0", MasterHash := "", Hosts := [] }

/-- Go `Config.AddHost`: refuse a host whose alias is already stored, append it
otherwise. -/
def Config.AddHost (c : Config) (host : Host) : Config × Option ConfigError :=
  if c.Hosts.any (fun h => h.Alias == host.Alias) then
    (c, some ConfigError.ErrAliasExists)
  else
    ({ c with Hosts := c.Hosts ++ [host] }, none)

/-- Index of the first host with the given ID: the `for i, h := range c.Hosts`
loops of `DeleteHost` and `UpdateHost`, which stop at the first hit. -/
def indexOfID : List Host → String → Option Nat
  | [], _ => none
  | h :: t, id => if h.ID == id then some 0 else (indexOfID t id).map (· + 1)

/-- Go `Config.DeleteHost`: `append(c.Hosts[:i], c.Hosts[i+1:]...)` at the
first index whose host has the ID. -/
def Config.DeleteHost (c : Config) (id : String) : Config × Option ConfigError :=
  match indexOfID c.Hosts id with
  | some i => ({ c with Hosts := c.Hosts.take i ++ c.Hosts.drop (i + 1) }, none)
  | none => (c, some ConfigError.ErrHostNotFound)

/-- Go `Config.UpdateHost`: first the duplicate-alias loop, then the loop that
overwrites the first host with the ID. -/
def Config.UpdateHost (c : Config) (host : Host) : Config × Option ConfigError :=
  if c.Hosts.any (fun h => h.Alias == host.Alias && h.ID != host.ID) then
    (c, some ConfigError.ErrAliasExists)
  else
    match indexOfID c.Hosts host.ID with
    | some i => ({ c with Hosts := c.Hosts.set i host }, none)
    | none => (c, some ConfigError.ErrHostNotFound)

/-- Go `Config.GetHostByID`. -/
def Config.GetHostByID (c : Config) (id : String) : Except ConfigError Host :=
  match c.Hosts.find? (fun h => h.ID == id) with
  | some h => Except.ok h
  | none => Except.error ConfigError.ErrHostNotFound

/-- Go `Config.GetHostByAlias`. -/
def Config.GetHostByAlias (c : Config) (aliasName : String) : Except ConfigError Host :=
  match c.Hosts.find? (fun h => h.Alias == aliasName) with
  | some h => Except.ok h
  | none => Except.error ConfigError.ErrHostNotFound

/-- Go `Config.ListHosts`: a copy of the hosts. -/
def Config.ListHosts (c : Config) : List Host := c.Hosts

/-- Go `Config.SetMasterHash`. -/
def Config.SetMasterHash (c : Config) (hash : String) : Config :=
  { c with MasterHash := hash }

/-- Go `Config.GetMasterHash`. -/
def Config.GetMasterHash (c : Config) : String := c.MasterHash

/-- The registry of a new configuration holding the given hosts. -/
def registryOf (hosts : List Host) : Config :=
  { NewConfig with Hosts := hosts }

/-- A host with the given ID and alias, the other fields fixed; for examples. -/
def mkHost (id aliasName : String) : Host :=
  { ID := id, Alias := aliasName, Host := "10.0.0.5", User := "ubuntu", Password := "00",
    Port := 22, CreatedAt := "2026-01-09", UpdatedAt := "2026-01-09" }

/-- The second loop of `UpdateHost` and the loop of `DeleteHost` seen as list
functions: overwrite, respectively drop, the first host with the ID. They are
what the slice operations at `indexOfID` compute (`set_indexOfID`,
`take_drop_indexOfID`). -/
def replaceFirstID : List Host → String → Host → List Host
  | [], _, _ => []
  | h :: t, id, host => if h.ID == id then host :: t else h :: replaceFirstID t id host

/-- Drop the first host with the ID. -/
def eraseFirstID : List Host → String → List Host
  | [], _ => []
  | h :: t, id => if h.ID == id then t else h :: eraseFirstID t id

/-- A call of one of the two methods that can introduce an alias. -/
inductive RegistryCall where
  | AddHost (host : Host)
  | UpdateHost (host : Host)
deriving DecidableEq, Repr

/-- One call on the registry; the returned error is dropped, the registry kept. -/
def RegistryCall.apply (c : Config) : RegistryCall → Config
  | RegistryCall.AddHost host => (c.AddHost host).1
  | RegistryCall.UpdateHost host => (c.UpdateHost host).1

/-- A sequence of calls, first call first. -/
def applyCalls (c : Config) : List RegistryCall → Config
  | [] => c
  | call :: rest => applyCalls (call.apply c) rest

/-- Every `AddHost` call of the sequence carries an ID that no stored host has
at the moment of the call. -/
def freshAddIDs (c : Config) : List RegistryCall → Bool
  | [] => true
  | RegistryCall.AddHost host :: rest =>
      c.Hosts.all (fun h => h.ID != host.ID) && freshAddIDs (c.AddHost host).1 rest
  | RegistryCall.UpdateHost host :: rest => freshAddIDs (c.UpdateHost host).1 rest

/-- The IDs and the aliases of the stored hosts are each pairwise distinct. -/
def DistinctKeys (c : Config) : Prop :=
  (c.Hosts.map (fun h => h.ID)).Nodup ∧ (c.Hosts.map (fun h => h.Alias)).Nodup

/-! ## pkg/cli -/

/-- Go `generateID` (commands.go; `GenerateID` in helpers.go is the same
expression): the decimal of the number of hosts plus one. -/
def generateID (cfg : Config) : String :=
  toString (cfg.ListHosts.length + 1)

/-- Go `getCurrentTime`. -/
def getCurrentTime : String := "2026-01-09"

/-- Lines 60-76 of `AddCommand`: build the host with a generated ID and add it.
The values read at the prompts and the encrypted password are arguments. -/
def AddCommand.addHost (cfg : Config) (aliasName host user encryptedPassword : String)
    (port : Int) : Config × Option ConfigError :=
  let newHost : Host :=
    { ID := generateID cfg, Alias := aliasName, Host := host, User := user,
      Password := encryptedPassword, Port := port,
      CreatedAt := getCurrentTime, UpdatedAt := getCurrentTime }
  cfg.AddHost newHost

/-- An add through `AddCommand` or a `DeleteHost` call. -/
inductive StoreOp where
  | add (aliasName host user encryptedPassword : String) (port : Int)
  | delete (id : String)
deriving DecidableEq, Repr

/-- One store operation; the returned error is dropped, the registry kept. -/
def StoreOp.apply (c : Config) : StoreOp → Config
  | StoreOp.add a h u pw port => (AddCommand.addHost c a h u pw port).1
  | StoreOp.delete id => (c.DeleteHost id).1

/-- A sequence of store operations, first operation first. -/
def applyOps (c : Config) : List StoreOp → Config
  | [] => c
  | op :: rest => applyOps (op.apply c) rest

/-- Go type `fuzzy.Match` of the library github.com/sahilm/fuzzy. -/
structure Match where
  Str : String
  Index : Int
  MatchedIndexes : List Int
  Score : Int
deriving DecidableEq, Repr

/-- What `findHostByAlias` does: return a host, return an error, or stop with
an index-out-of-range run-time panic at `hosts[bestMatch.Index]`. -/
inductive FindResult where
  | ok (host : Host)
  | error (e : ConfigError)
  | indexPanic
deriving DecidableEq, Repr

/-- Go `findHostByAlias` (helpers.go). The library function `fuzzy.Find` is the
argument `find`. -/
def findHostByAlias (find : String → List String → List Match) (cfg : Config)
    (aliasName : String) : FindResult :=
  match cfg.GetHostByAlias aliasName with
  | Except.ok host => FindResult.ok host
  | Except.error _ =>
    let hosts := cfg.ListHosts
    if hosts.length = 0 then FindResult.error ConfigError.ErrHostNotFound
    else
      let aliases := hosts.map (fun h => h.Alias)
      match find aliasName aliases with
      | [] => FindResult.error ConfigError.ErrHostNotFound
      | bestMatch :: _ =>
        if bestMatch.Index < 0 then FindResult.indexPanic
        else
          match hosts.get? bestMatch.Index.toNat with
          | some host => FindResult.ok host
          | none => FindResult.indexPanic

/-- The part of package `encryption` (not among the sources) that the
authentication code calls: `NewEncryptor`, and whether `Encrypt` on an
encryptor returns an error. -/
structure Cipher (E : Type) where
  NewEncryptor : String → E
  EncryptErr : E → String → Bool

/-- The package-level variables of package cli together with the world they
act on: the loaded configuration `cfg`, the configuration file on disk (`none`
when `cfg.Exists()` is false), the cached `masterPassword` and `encryptor`,
and the lines still to be read from standard input. Printed text is left out. -/
structure Process (E : Type) where
  cfg : Config
  file : Option Config
  masterPassword : String
  encryptor : Option E
  stdin : List String

/-- Go `fmt.Scanln(&s)` on a string variable holding the empty string: the next
line of input, taken to be a single word, and the remaining lines; the
variable stays empty when the input is exhausted. -/
def Scanln : List String → String × List String
  | [] => ("", [])
  | line :: rest => (line, rest)

/-- Go `EnsureAuthenticated` (helpers.go). Inside the `if` block the line
`var masterPassword string` declares a new local variable, which receives the
scanned password; the `return masterPassword, true` after the block names the
package-level variable. -/
def EnsureAuthenticated {E : Type} (ci : Cipher E) (p : Process E) :
    Process E × (String × Bool) :=
  if !p.file.isSome then (p, ("", false))
  else if p.masterPassword == "" then
    let scanned := Scanln p.stdin
    let masterPassword := scanned.1
    let p1 := { p with stdin := scanned.2 }
    let testEncryptor := ci.NewEncryptor masterPassword
    if ci.EncryptErr testEncryptor "test" then (p1, ("", false))
    else
      let p2 := { p1 with encryptor := some testEncryptor }
      (p2, (p2.masterPassword, true))
  else (p, (p.masterPassword, true))

/-- Go `ensureAuthenticated` (commands.go), the sibling of `EnsureAuthenticated`:
it scans into the package-level `masterPassword`, reads the master hash and
drops it, and clears the password again when `Encrypt` fails. -/
def ensureAuthenticated {E : Type} (ci : Cipher E) (p : Process E) : Process E × Bool :=
  if !p.file.isSome then (p, false)
  else if p.masterPassword == "" then
    let scanned := Scanln p.stdin
    let p1 := { p with stdin := scanned.2, masterPassword := scanned.1 }
    let testEncryptor := ci.NewEncryptor p1.masterPassword
    let _ := p1.cfg.GetMasterHash
    if ci.EncryptErr testEncryptor "test" then ({ p1 with masterPassword := "" }, false)
    else ({ p1 with encryptor := some testEncryptor }, true)
  else (p, true)

/-- Go `Config.Save` as the cli code sees it: on success the file holds the
configuration; `saveFails` says that marshalling or writing returned an error. -/
def Save {E : Type} (saveFails : Bool) (p : Process E) : Process E × Bool :=
  if saveFails then (p, false) else ({ p with file := some p.cfg }, true)

/-- Go `InitCommand.Run` up to the saving of the configuration (the
installation of shell completion that follows is left out). `sha256hex` is
`fmt.Sprintf("%x", sha256.Sum256([]byte(password)))`; Go `len(password)` is the
number of bytes of the string. -/
def InitCommand {E : Type} (sha256hex : String → String) (saveFails : Bool)
    (p : Process E) : Process E :=
  if p.file.isSome then p
  else
    let scanned := Scanln p.stdin
    let password := scanned.1
    let p1 := { p with stdin := scanned.2 }
    if password.utf8ByteSize < 8 then p1
    else
      let scanned2 := Scanln p1.stdin
      let confirm := scanned2.1
      let p2 := { p1 with stdin := scanned2.2 }
      if password != confirm then p2
      else
        let p3 := { p2 with cfg := p2.cfg.SetMasterHash (sha256hex password) }
        (Save saveFails p3).1

/-- Go `InitializeCLI` at the start of a run: a new configuration, replaced by
the contents of the configuration file when there is one (`cfg.Load()`), no
encryptor and the empty master password. -/
def InitializeCLI {E : Type} (file : Option Config) (stdin : List String) : Process E :=
  { cfg := file.getD NewConfig, file := file, masterPassword := "", encryptor := none,
    stdin := stdin }

/-- A matcher that ranks the alias at index 1 first whatever the query; for
examples. -/
def secondFirst (_ : String) (aliases : List String) : List Match :=
  match aliases.get? 1 with
  | some a => [{ Str := a, Index := 1, MatchedIndexes := [], Score := 0 }]
  | none => []

/-- Modelled from the spec: package `encryption` is not among the sources. The
spec gives `encrypt(KeyMaterial, plaintext) -> ciphertext_blob` no failure
outcome and makes the key material a deterministic function of the password,
so this cipher keeps the password as the encryptor and never fails to encrypt. -/
def specCipher : Cipher String :=
  { NewEncryptor := fun masterPassword => masterPassword, EncryptErr := fun _ _ => false }

/-- Successive `AddHost` calls, first host first; `none` as soon as one of
them returns an error. -/
def addHosts (c : Config) : List Host → Option Config
  | [] => some c
  | host :: rest =>
    match c.AddHost host with
    | (c1, none) => addHosts c1 rest
    | (_, some _) => none

/-- Go `GetHostSuggestions` (helpers.go). `toComplete` is the variadic
argument; `find` is `fuzzy.Find` and `ToLower` is `strings.ToLower`. The result
is `none` when `aliases[match.Index]` is out of range (a run-time panic). -/
def GetHostSuggestions (find : String → List String → List Match)
    (ToLower : String → String) (cfg : Config) (toComplete : List String) :
    Option (List String) :=
  let hosts := cfg.ListHosts
  let aliases := hosts.map (fun h => h.Alias)
  match toComplete with
  | first :: _ =>
    if first != "" then
      (find (ToLower first) aliases).mapM
        (fun m => if m.Index < 0 then none else aliases.get? m.Index.toNat)
    else some aliases
  | [] => some aliases

/-! ## pkg/ssh -/

/-- Go `strings.Split(s, sep)` for a separator of one character, on the
characters of the string: the pieces between the occurrences of `sep`. -/
def splitChars (sep : Char) : List Char → List (List Char)
  | [] => [[]]
  | c :: cs =>
    if c = sep then [] :: splitChars sep cs
    else
      match splitChars sep cs with
      | [] => [[c]]
      | piece :: pieces => (c :: piece) :: pieces

/-- Go `strings.Split` with a one-character separator. -/
def Split (s : String) (sep : Char) : List String :=
  (splitChars sep s.data).map String.mk

/-- The white space of package fmt (`isSpace` in fmt/scan.go). -/
def isSpace (c : Char) : Bool :=
  let r := c.toNat
  (0x0009 ≤ r && r ≤ 0x000d) || r = 0x0020 || r = 0x0085 || r = 0x00a0 || r = 0x1680 ||
    (0x2000 ≤ r && r ≤ 0x200a) || r = 0x2028 || r = 0x2029 || r = 0x202f || r = 0x205f ||
    r = 0x3000

/-- Go `(*ss).SkipSpace` as `Sscanf` runs it: leading white space is dropped,
a newline is an error (`none`). -/
def skipSpace : List Char → Option (List Char)
  | [] => some []
  | c :: cs => if c = '\n' then none else if isSpace c then skipSpace cs else some (c :: cs)

/-- A decimal digit, `0` to `9`. -/
def isDecimalDigit (c : Char) : Bool :=
  48 ≤ c.toNat && c.toNat ≤ 57

/-- The number a string of decimal digits stands for. -/
def parseDigits (cs : List Char) : Nat :=
  cs.foldl (fun acc c => 10 * acc + (c.toNat - 48)) 0

/-- Go `fmt.Sscanf(s, "%d", &port)` for a Go `int` of 64 bits, `none` when it
returns an error: skip white space, accept one sign, read the digits that
follow (at least one), and convert them with `strconv.ParseInt(tok, 10, 64)`,
which fails outside the 64-bit range. Input after the digits is ignored. -/
def Sscanf_d (input : List Char) : Option Int :=
  match skipSpace input with
  | none => none
  | some [] => none
  | some (c :: cs) =>
    let neg := c = '-'
    let body := if c = '+' ∨ c = '-' then cs else c :: cs
    let digits := body.takeWhile isDecimalDigit
    if digits = [] then none
    else
      let v : Int := if neg then -(parseDigits digits : Int) else (parseDigits digits : Int)
      if -9223372036854775808 ≤ v ∧ v ≤ 9223372036854775807 then some v else none

/-- The two errors of `ParseHostString`. -/
inductive ParseError where
  | invalidPort
  | invalidHost
deriving DecidableEq, Repr

/-- Go `ParseHostString` (ssh.go): the named results `(host, user, port, err)`;
every error return is `("", "", 0, err)`. -/
def ParseHostString (hostStr : String) : String × String × Int × Option ParseError :=
  let parts := Split hostStr '@'
  let userAndRest : String × String :=
    match parts with
    | [p0, p1] => (p0, p1)
    | _ => ("", hostStr)
  let user := userAndRest.1
  let hostParts := Split userAndRest.2 ':'
  let host := hostParts.headD ""
  let scanned : Option Int :=
    match hostParts with
    | [_, portStr] => Sscanf_d portStr.data
    | _ => some 22
  match scanned with
  | none => ("", "", 0, some ParseError.invalidPort)
  | some port =>
    if host = "" then ("", "", 0, some ParseError.invalidHost)
    else (host, user, port, none)

end Sshmgr

namespace Sshmgr

/-! ## Lemmas on the loops of package config -/

theorem any_alias_iff (l : List Host) (a : String) :
    l.any (fun h => h.Alias == a) = true ↔ ∃ r ∈ l, r.Alias = a := by
  simp [List.any_eq_true]

theorem any_conflict_iff (l : List Host) (host : Host) :
    l.any (fun h => h.Alias == host.Alias && h.ID != host.ID) = true ↔
      ∃ r ∈ l, r.Alias = host.Alias ∧ r.ID ≠ host.ID := by
  simp [List.any_eq_true]

theorem indexOfID_eq_none_iff (l : List Host) (id : String) :
    indexOfID l id = none ↔ ∀ r ∈ l, r.ID ≠ id := by
  induction l with
  | nil => simp [indexOfID]
  | cons h t ih =>
    by_cases hid : h.ID = id
    · simp [indexOfID, hid]
    · simp [indexOfID, hid, ih]

theorem indexOfID_isSome_iff (l : List Host) (id : String) :
    (∃ i, indexOfID l id = some i) ↔ ∃ r ∈ l, r.ID = id := by
  constructor
  · rintro ⟨i, hi⟩
    by_contra hne
    have hnone : indexOfID l id = none :=
      (indexOfID_eq_none_iff l id).2 (fun r hr heq => hne ⟨r, hr, heq⟩)
    rw [hnone] at hi
    cases hi
  · rintro ⟨r, hr, heq⟩
    cases hidx : indexOfID l id with
    | none => exact absurd heq ((indexOfID_eq_none_iff l id).1 hidx r hr)
    | some i => exact ⟨i, rfl⟩

theorem take_drop_indexOfID (l : List Host) (id : String) (i : Nat)
    (h : indexOfID l id = some i) : l.take i ++ l.drop (i + 1) = eraseFirstID l id := by
  induction l generalizing i with
  | nil => simp [indexOfID] at h
  | cons a t ih =>
    by_cases hid : a.ID = id
    · simp [indexOfID, hid] at h
      subst h
      simp [eraseFirstID, hid]
    · simp [indexOfID, hid] at h
      obtain ⟨j, hj, rfl⟩ := h
      simp [eraseFirstID, hid, ih j hj]

theorem set_indexOfID (l : List Host) (id : String) (host : Host) (i : Nat)
    (h : indexOfID l id = some i) : l.set i host = replaceFirstID l id host := by
  induction l generalizing i with
  | nil => simp [indexOfID] at h
  | cons a t ih =>
    by_cases hid : a.ID = id
    · simp [indexOfID, hid] at h
      subst h
      simp [replaceFirstID, hid]
    · simp [indexOfID, hid] at h
      obtain ⟨j, hj, rfl⟩ := h
      simp [replaceFirstID, hid, ih j hj]

theorem map_ID_replaceFirstID (l : List Host) (host : Host) :
    (replaceFirstID l host.ID host).map (fun h => h.ID) = l.map (fun h => h.ID) := by
  induction l with
  | nil => simp [replaceFirstID]
  | cons a t ih =>
    by_cases hid : a.ID = host.ID
    · simp [replaceFirstID, hid]
    · simp [replaceFirstID, hid, ih]

theorem mem_replaceFirstID (l : List Host) (id : String) (host r : Host)
    (h : r ∈ replaceFirstID l id host) : r ∈ l ∨ r = host := by
  induction l with
  | nil => simp [replaceFirstID] at h
  | cons a t ih =>
    by_cases hid : a.ID = id
    · simp [replaceFirstID, hid] at h
      rcases h with h | h
      · exact Or.inr h
      · exact Or.inl (List.mem_cons_of_mem _ h)
    · simp [replaceFirstID, hid] at h
      rcases h with h | h
      · exact Or.inl (h ▸ List.mem_cons_self _ _)
      · rcases ih h with h1 | h1
        · exact Or.inl (List.mem_cons_of_mem _ h1)
        · exact Or.inr h1

theorem count_ID_eraseFirstID (l : List Host) (id : String) :
    ((eraseFirstID l id).map (fun h => h.ID)).count id =
      (l.map (fun h => h.ID)).count id - 1 := by
  induction l with
  | nil => simp [eraseFirstID]
  | cons a t ih =>
    by_cases hid : a.ID = id
    · simp [eraseFirstID, hid]
    · simp [eraseFirstID, hid, ih, List.count_cons]

/-- With pairwise distinct IDs and no stored host of another ID carrying the
new alias, overwriting the host of that ID keeps the aliases pairwise
distinct. -/
theorem nodup_alias_replaceFirstID (l : List Host) (host : Host)
    (hid : (l.map (fun h => h.ID)).Nodup) (hal : (l.map (fun h => h.Alias)).Nodup)
    (hno : ∀ r ∈ l, r.Alias = host.Alias → r.ID = host.ID) :
    ((replaceFirstID l host.ID host).map (fun h => h.Alias)).Nodup := by
  induction l with
  | nil => simp [replaceFirstID]
  | cons a t ih =>
    have hid1 : a.ID ∉ t.map (fun h => h.ID) := (List.nodup_cons.1 hid).1
    have hid2 : (t.map (fun h => h.ID)).Nodup := (List.nodup_cons.1 hid).2
    have hal1 : a.Alias ∉ t.map (fun h => h.Alias) := (List.nodup_cons.1 hal).1
    have hal2 : (t.map (fun h => h.Alias)).Nodup := (List.nodup_cons.1 hal).2
    have hno2 : ∀ r ∈ t, r.Alias = host.Alias → r.ID = host.ID :=
      fun r hr => hno r (List.mem_cons_of_mem _ hr)
    by_cases hd : a.ID = host.ID
    · simp only [replaceFirstID, hd, beq_self_eq_true, if_true, List.map_cons]
      refine List.nodup_cons.2 ⟨?_, hal2⟩
      intro hmem
      obtain ⟨r, hr, hra⟩ := List.mem_map.1 hmem
      have hrid : r.ID = host.ID := hno2 r hr hra
      exact hid1 (List.mem_map.2 ⟨r, hr, by rw [hrid, hd]⟩)
    · have hbeq : (a.ID == host.ID) = false := by simp [hd]
      simp only [replaceFirstID, hbeq, List.map_cons]
      refine List.nodup_cons.2 ⟨?_, ih hid2 hal2 hno2⟩
      intro hmem
      obtain ⟨r, hr, hra⟩ := List.mem_map.1 hmem
      rcases mem_replaceFirstID t host.ID host r hr with h1 | h1
      · exact hal1 (List.mem_map.2 ⟨r, h1, hra⟩)
      · subst h1
        exact hd (hno a (List.mem_cons_self _ _) hra.symm)

/-! ## The registry invariant -/

theorem AddHost_keeps_DistinctKeys (c : Config) (host : Host) (hc : DistinctKeys c)
    (hfresh : c.Hosts.all (fun h => h.ID != host.ID) = true) :
    DistinctKeys (c.AddHost host).1 := by
  unfold Config.AddHost
  by_cases hany : c.Hosts.any (fun h => h.Alias == host.Alias) = true
  · simpa [hany] using hc
  · have hal : ∀ r ∈ c.Hosts, r.Alias ≠ host.Alias := by
      intro r hr heq
      exact hany ((any_alias_iff c.Hosts host.Alias).2 ⟨r, hr, heq⟩)
    have hidf : ∀ r ∈ c.Hosts, r.ID ≠ host.ID := by
      intro r hr
      have := List.all_eq_true.1 hfresh r hr
      simpa using this
    simp only [hany, Bool.false_eq_true, if_false, DistinctKeys, List.map_append, List.map_cons,
      List.map_nil]
    constructor
    · refine List.nodup_append.2 ⟨hc.1, List.nodup_singleton _, ?_⟩
      intro x hx hx2
      obtain ⟨r, hr, rfl⟩ := List.mem_map.1 hx
      exact hidf r hr (List.mem_singleton.1 hx2)
    · refine List.nodup_append.2 ⟨hc.2, List.nodup_singleton _, ?_⟩
      intro x hx hx2
      obtain ⟨r, hr, rfl⟩ := List.mem_map.1 hx
      exact hal r hr (List.mem_singleton.1 hx2)

theorem UpdateHost_keeps_DistinctKeys (c : Config) (host : Host) (hc : DistinctKeys c) :
    DistinctKeys (c.UpdateHost host).1 := by
  unfold Config.UpdateHost
  by_cases hany : c.Hosts.any (fun h => h.Alias == host.Alias && h.ID != host.ID) = true
  · simpa [hany] using hc
  · have hno : ∀ r ∈ c.Hosts, r.Alias = host.Alias → r.ID = host.ID := by
      intro r hr heq
      by_contra hne
      exact hany ((any_conflict_iff c.Hosts host).2 ⟨r, hr, heq, hne⟩)
    simp only [hany, Bool.false_eq_true, if_false]
    cases hidx : indexOfID c.Hosts host.ID with
    | none => simpa using hc
    | some i =>
      simp only [DistinctKeys, set_indexOfID c.Hosts host.ID host i hidx]
      exact ⟨by rw [map_ID_replaceFirstID]; exact hc.1,
        nodup_alias_replaceFirstID c.Hosts host hc.1 hc.2 hno⟩

theorem applyCalls_keeps_DistinctKeys (calls : List RegistryCall) (c : Config)
    (hc : DistinctKeys c) (hfresh : freshAddIDs c calls = true) :
    DistinctKeys (applyCalls c calls) := by
  induction calls generalizing c with
  | nil => simpa [applyCalls] using hc
  | cons call rest ih =>
    cases call with
    | AddHost host =>
      simp only [freshAddIDs, Bool.and_eq_true] at hfresh
      exact ih _ (AddHost_keeps_DistinctKeys c host hc hfresh.1) hfresh.2
    | UpdateHost host =>
      simp only [freshAddIDs] at hfresh
      exact ih _ (UpdateHost_keeps_DistinctKeys c host hc) hfresh

/-! ## C1 -/

/-- C1, as stated, fails: adding two hosts that share the ID 1 under the aliases
a and b and then updating ID 1 to the alias b passes the duplicate check (the
only host with alias b has the same ID) and overwrites the first host, leaving
two hosts with the alias b. -/
theorem C1_duplicate_alias_after_update :
    (applyCalls NewConfig
        [RegistryCall.AddHost (mkHost "1" "a"), RegistryCall.AddHost (mkHost "1" "b"),
          RegistryCall.UpdateHost (mkHost "1" "b")]).Hosts.map (fun h => h.Alias) = ["b", "b"] ∧
      ¬ ((applyCalls NewConfig
        [RegistryCall.AddHost (mkHost "1" "a"), RegistryCall.AddHost (mkHost "1" "b"),
          RegistryCall.UpdateHost (mkHost "1" "b")]).Hosts.map (fun h => h.Alias)).Nodup := by
  decide

/-- C1, amended: starting from the empty registry, after every finite sequence
of AddHost and UpdateHost calls in which each AddHost argument carries an ID
that no stored host has at the moment of the call (whether each call succeeds
or fails, UpdateHost arguments arbitrary), no two stored hosts share an
alias. -/
theorem C1_alias_unique_of_fresh_add_ids (calls : List RegistryCall)
    (hfresh : freshAddIDs NewConfig calls = true) :
    ((applyCalls NewConfig calls).Hosts.map (fun h => h.Alias)).Nodup :=
  (applyCalls_keeps_DistinctKeys calls NewConfig
    ⟨List.nodup_nil, List.nodup_nil⟩ hfresh).2

/-- C1, amended, at a sequence with a refused add, a renaming update, a refused
update and an update of an absent ID. -/
theorem C1_alias_unique_witness :
    freshAddIDs NewConfig
        [RegistryCall.AddHost (mkHost "1" "a"), RegistryCall.AddHost (mkHost "2" "b"),
          RegistryCall.AddHost (mkHost "3" "a"), RegistryCall.UpdateHost (mkHost "1" "c"),
          RegistryCall.UpdateHost (mkHost "2" "c"), RegistryCall.UpdateHost (mkHost "9" "z")]
        = true ∧
      ((applyCalls NewConfig
        [RegistryCall.AddHost (mkHost "1" "a"), RegistryCall.AddHost (mkHost "2" "b"),
          RegistryCall.AddHost (mkHost "3" "a"), RegistryCall.UpdateHost (mkHost "1" "c"),
          RegistryCall.UpdateHost (mkHost "2" "c"),
          RegistryCall.UpdateHost (mkHost "9" "z")]).Hosts.map (fun h => h.Alias)).Nodup :=
  ⟨by decide, C1_alias_unique_of_fresh_add_ids _ (by decide)⟩

/-! ## C2 -/

/-- C2: AddHost returns ErrAliasExists exactly when a stored host already has
the alias of the argument, and then returns the registry as it was. -/
theorem C2_AddHost_alias_exists_iff (c : Config) (host : Host) :
    ((c.AddHost host).2 = some ConfigError.ErrAliasExists ↔
        ∃ r ∈ c.Hosts, r.Alias = host.Alias) ∧
      ((c.AddHost host).2 = some ConfigError.ErrAliasExists → (c.AddHost host).1 = c) := by
  unfold Config.AddHost
  by_cases hany : c.Hosts.any (fun h => h.Alias == host.Alias) = true
  · have hex := (any_alias_iff c.Hosts host.Alias).1 hany
    rw [if_pos hany]
    exact ⟨⟨fun _ => hex, fun _ => rfl⟩, fun _ => rfl⟩
  · have hnex : ¬ ∃ r ∈ c.Hosts, r.Alias = host.Alias :=
      fun hex => hany ((any_alias_iff c.Hosts host.Alias).2 hex)
    rw [if_neg hany]
    exact ⟨⟨fun h => Option.noConfusion h, fun h => absurd h hnex⟩,
      fun h => Option.noConfusion h⟩

/-! ## C3 -/

/-- C3: UpdateHost returns ErrAliasExists and the unchanged registry when a
stored host with another ID has the alias of the argument; failing that, it
returns ErrHostNotFound and the unchanged registry when no stored host has the
ID of the argument; and it succeeds otherwise. -/
theorem C3_UpdateHost_outcome (c : Config) (host : Host) :
    ((∃ r ∈ c.Hosts, r.Alias = host.Alias ∧ r.ID ≠ host.ID) →
        c.UpdateHost host = (c, some ConfigError.ErrAliasExists)) ∧
      ((¬ ∃ r ∈ c.Hosts, r.Alias = host.Alias ∧ r.ID ≠ host.ID) →
        (∀ r ∈ c.Hosts, r.ID ≠ host.ID) →
        c.UpdateHost host = (c, some ConfigError.ErrHostNotFound)) ∧
      ((¬ ∃ r ∈ c.Hosts, r.Alias = host.Alias ∧ r.ID ≠ host.ID) →
        (∃ r ∈ c.Hosts, r.ID = host.ID) →
        (c.UpdateHost host).2 = none) := by
  unfold Config.UpdateHost
  refine ⟨?_, ?_, ?_⟩
  · intro hex
    have hany := (any_conflict_iff c.Hosts host).2 hex
    simp only [hany, if_true]
  · intro hnex hnone
    have hany : ¬ c.Hosts.any (fun h => h.Alias == host.Alias && h.ID != host.ID) = true :=
      fun h => hnex ((any_conflict_iff c.Hosts host).1 h)
    simp only [hany, Bool.false_eq_true, if_false, (indexOfID_eq_none_iff c.Hosts host.ID).2 hnone]
  · intro hnex hsome
    have hany : ¬ c.Hosts.any (fun h => h.Alias == host.Alias && h.ID != host.ID) = true :=
      fun h => hnex ((any_conflict_iff c.Hosts host).1 h)
    obtain ⟨i, hi⟩ := (indexOfID_isSome_iff c.Hosts host.ID).2 hsome
    simp only [hany, Bool.false_eq_true, if_false, hi]

/-! ## C4 -/

/-- C4, as stated, fails: in a registry whose two hosts both carry the ID 2
(aliases b and c), DeleteHost of ID 2 succeeds and removes only the first of
them, after which GetHostByID still finds the host c and ListHosts still
lists a host with ID 2. -/
theorem C4_delete_leaves_second_host_with_id :
    ((registryOf [mkHost "2" "b", mkHost "2" "c"]).DeleteHost "2").2 = none ∧
      ((registryOf [mkHost "2" "b", mkHost "2" "c"]).DeleteHost "2").1.GetHostByID
          "2" = Except.ok (mkHost "2" "c") ∧
      mkHost "2" "c" ∈
        ((registryOf [mkHost "2" "b", mkHost "2" "c"]).DeleteHost "2").1.ListHosts :=
  ⟨rfl, rfl, by decide⟩

/-- C4, amended: for every registry and every id carried by exactly one stored
host (so for every carried id when the IDs are pairwise distinct), DeleteHost
succeeds, and afterwards GetHostByID fails with ErrHostNotFound and ListHosts
contains no host with that ID. -/
theorem C4_delete_then_absent (c : Config) (id : String)
    (hone : (c.Hosts.map (fun h => h.ID)).count id = 1) :
    (c.DeleteHost id).2 = none ∧
      (c.DeleteHost id).1.GetHostByID id = Except.error ConfigError.ErrHostNotFound ∧
      ∀ r ∈ (c.DeleteHost id).1.ListHosts, r.ID ≠ id := by
  have hmem : id ∈ c.Hosts.map (fun h => h.ID) :=
    List.count_pos_iff.1 (by rw [hone]; exact Nat.one_pos)
  obtain ⟨r0, hr0, hr0id⟩ := List.mem_map.1 hmem
  obtain ⟨i, hi⟩ := (indexOfID_isSome_iff c.Hosts id).2 ⟨r0, hr0, hr0id⟩
  have hcount : ((eraseFirstID c.Hosts id).map (fun h => h.ID)).count id = 0 := by
    rw [count_ID_eraseFirstID, hone]
  have habsent : ∀ r ∈ eraseFirstID c.Hosts id, r.ID ≠ id := by
    intro r hr heq
    have hin : id ∈ (eraseFirstID c.Hosts id).map (fun h => h.ID) :=
      List.mem_map.2 ⟨r, hr, heq⟩
    exact (List.count_eq_zero.1 hcount) hin
  have hfind : (eraseFirstID c.Hosts id).find? (fun h => h.ID == id) = none := by
    rw [List.find?_eq_none]
    intro r hr
    simpa using habsent r hr
  simp only [Config.DeleteHost, hi, Config.GetHostByID, Config.ListHosts,
    take_drop_indexOfID c.Hosts id i hi, hfind]
  exact ⟨trivial, trivial, habsent⟩

/-- C4, amended, at a registry of two hosts with the IDs 1 and 2. -/
theorem C4_delete_then_absent_witness :
    ((registryOf [mkHost "1" "a", mkHost "2" "b"]).Hosts.map
        (fun h => h.ID)).count "2" = 1 ∧
      ((registryOf [mkHost "1" "a", mkHost "2" "b"]).DeleteHost "2").1.GetHostByID
        "2" = Except.error ConfigError.ErrHostNotFound :=
  ⟨by decide,
    (C4_delete_then_absent (registryOf [mkHost "1" "a", mkHost "2" "b"]) "2"
      (by decide)).2.1⟩

/-! ## C5 -/

/-- C5 fails on the code: from the empty registry, adding a, adding b (IDs 1
and 2), deleting ID 1 and adding c gives c the ID 2 again, the decimal of the
current count 1 plus one, so the two stored hosts b and c share the ID 2. -/
theorem C5_generateID_repeats_after_delete :
    (applyOps NewConfig
        [StoreOp.add "a" "10.0.0.5" "ubuntu" "00" 22, StoreOp.add "b" "10.0.0.6" "ubuntu" "00" 22,
          StoreOp.delete "1", StoreOp.add "c" "10.0.0.7" "ubuntu" "00" 22]).Hosts.map
        (fun h => (h.ID, h.Alias)) = [("2", "b"), ("2", "c")] ∧
      ¬ ((applyOps NewConfig
        [StoreOp.add "a" "10.0.0.5" "ubuntu" "00" 22, StoreOp.add "b" "10.0.0.6" "ubuntu" "00" 22,
          StoreOp.delete "1", StoreOp.add "c" "10.0.0.7" "ubuntu" "00" 22]).Hosts.map
        (fun h => h.ID)).Nodup := by
  decide

/-! ## C6 -/

theorem GetHostByAlias_of_mem (c : Config) (q : String) (h : ∃ r ∈ c.Hosts, r.Alias = q) :
    ∃ host, c.GetHostByAlias q = Except.ok host ∧ host.Alias = q ∧ host ∈ c.Hosts := by
  obtain ⟨r, hr, hrq⟩ := h
  unfold Config.GetHostByAlias
  cases hfind : c.Hosts.find? (fun h => h.Alias == q) with
  | none =>
    have := List.find?_eq_none.1 hfind r hr
    simp [hrq] at this
  | some host =>
    have hp := List.find?_some hfind
    exact ⟨host, rfl, by simpa using hp, List.mem_of_find?_eq_some hfind⟩

theorem GetHostByAlias_error_iff (c : Config) (q : String) :
    (∃ e, c.GetHostByAlias q = Except.error e) ↔ ∀ r ∈ c.Hosts, r.Alias ≠ q := by
  constructor
  · rintro ⟨e, he⟩ r hr hrq
    obtain ⟨host, hok, _⟩ := GetHostByAlias_of_mem c q ⟨r, hr, hrq⟩
    rw [hok] at he
    cases he
  · intro hnone
    have hfind : c.Hosts.find? (fun h => h.Alias == q) = none := by
      rw [List.find?_eq_none]
      intro r hr
      simpa using hnone r hr
    exact ⟨ConfigError.ErrHostNotFound, by simp [Config.GetHostByAlias, hfind]⟩

/-- When some stored host has the alias q, findHostByAlias returns a stored
host with that alias. -/
theorem findHostByAlias_of_mem (find : String → List String → List Match) (cfg : Config)
    (q : String) (h : ∃ r ∈ cfg.Hosts, r.Alias = q) :
    ∃ host, findHostByAlias find cfg q = FindResult.ok host ∧ host.Alias = q ∧
      host ∈ cfg.Hosts := by
  obtain ⟨host, hok, hq, hmem⟩ := GetHostByAlias_of_mem cfg q h
  exact ⟨host, by simp [findHostByAlias, hok], hq, hmem⟩

/-- C6: when some stored host has exactly the alias q, findHostByAlias returns
a stored host whose alias is q, whatever the fuzzy matcher would return. -/
theorem C6_exact_alias_found (find : String → List String → List Match) (cfg : Config)
    (q : String) (h : ∃ r ∈ cfg.Hosts, r.Alias = q) :
    ∃ host, findHostByAlias find cfg q = FindResult.ok host ∧ host.Alias = q ∧
      host ∈ cfg.Hosts :=
  findHostByAlias_of_mem find cfg q h

/-- C6 at the aliases prod-db, prod-api, staging with a matcher that would put
prod-api first: the query prod-db still resolves to the host prod-db. -/
theorem C6_exact_alias_found_witness :
    findHostByAlias secondFirst
        (registryOf [mkHost "1" "prod-db", mkHost "2" "prod-api", mkHost "3" "staging"])
        "prod-db" = FindResult.ok (mkHost "1" "prod-db") ∧
      ∃ host, findHostByAlias secondFirst
        (registryOf [mkHost "1" "prod-db", mkHost "2" "prod-api", mkHost "3" "staging"])
        "prod-db" = FindResult.ok host ∧ host.Alias = "prod-db" ∧
        host ∈ (registryOf
          [mkHost "1" "prod-db", mkHost "2" "prod-api", mkHost "3" "staging"]).Hosts :=
  ⟨by decide,
    C6_exact_alias_found secondFirst
      (registryOf [mkHost "1" "prod-db", mkHost "2" "prod-api", mkHost "3" "staging"])
      "prod-db" ⟨mkHost "1" "prod-db", by decide, by decide⟩⟩

/-! ## C7 -/

/-- C7: findHostByAlias returns ErrHostNotFound exactly when no stored host has
the alias q and either there is no stored host or the fuzzy matcher returns no
match for q against the stored aliases; so it fails for every q on a registry
without hosts. -/
theorem C7_not_found_iff (find : String → List String → List Match) (cfg : Config)
    (q : String) :
    (findHostByAlias find cfg q = FindResult.error ConfigError.ErrHostNotFound ↔
        (∀ r ∈ cfg.Hosts, r.Alias ≠ q) ∧
          (cfg.Hosts = [] ∨ find q (cfg.Hosts.map (fun h => h.Alias)) = [])) ∧
      (cfg.Hosts = [] →
        ∀ q2, findHostByAlias find cfg q2 = FindResult.error ConfigError.ErrHostNotFound) := by
  have key : ∀ q1, (findHostByAlias find cfg q1 = FindResult.error ConfigError.ErrHostNotFound ↔
        (∀ r ∈ cfg.Hosts, r.Alias ≠ q1) ∧
          (cfg.Hosts = [] ∨ find q1 (cfg.Hosts.map (fun h => h.Alias)) = [])) := by
    intro q1
    by_cases hex : ∃ r ∈ cfg.Hosts, r.Alias = q1
    · obtain ⟨host, hok, _, _⟩ := findHostByAlias_of_mem find cfg q1 hex
      constructor
      · intro herr
        rw [hok] at herr
        cases herr
      · rintro ⟨hnone, _⟩
        obtain ⟨r, hr, hrq⟩ := hex
        exact absurd hrq (hnone r hr)
    · have hnone : ∀ r ∈ cfg.Hosts, r.Alias ≠ q1 := fun r hr hrq => hex ⟨r, hr, hrq⟩
      obtain ⟨e, he⟩ := (GetHostByAlias_error_iff cfg q1).2 hnone
      by_cases hempty : cfg.Hosts = []
      · simp [findHostByAlias, he, Config.ListHosts, hempty]
      · have hlen : ¬ cfg.Hosts.length = 0 := fun h => hempty (List.length_eq_zero.1 h)
        cases hm : find q1 (cfg.Hosts.map (fun h => h.Alias)) with
        | nil =>
          have hres : findHostByAlias find cfg q1 =
              FindResult.error ConfigError.ErrHostNotFound := by
            simp [findHostByAlias, he, Config.ListHosts, hm]
          exact ⟨fun _ => ⟨hnone, Or.inr rfl⟩, fun _ => hres⟩
        | cons bestMatch rest =>
          have hres : findHostByAlias find cfg q1 ≠
              FindResult.error ConfigError.ErrHostNotFound := by
            simp only [findHostByAlias, he, Config.ListHosts, hlen, if_false, hm]
            split
            · intro h; cases h
            · split
              · intro h; cases h
              · intro h; cases h
          constructor
          · intro h; exact absurd h hres
          · rintro ⟨_, h | h⟩
            · exact absurd h hempty
            · cases h
  exact ⟨key q, fun hempty q2 => (key q2).2 ⟨by simp [hempty], Or.inl hempty⟩⟩

/-! ## C8 -/

/-- What `EnsureAuthenticated` does on a first call that accepts the scanned
password: it returns the package-level password, still empty, with ok true,
caches the encryptor only, and consumes one line of input. -/
theorem EnsureAuthenticated_first_call {E : Type} (ci : Cipher E) (p : Process E)
    (pw : String) (rest : List String) (hfile : p.file.isSome = true)
    (hpw : p.masterPassword = "") (hin : p.stdin = pw :: rest)
    (hacc : ci.EncryptErr (ci.NewEncryptor pw) "test" = false) :
    (EnsureAuthenticated ci p).2 = ("", true) ∧
      (EnsureAuthenticated ci p).1.masterPassword = "" ∧
      (EnsureAuthenticated ci p).1.encryptor = some (ci.NewEncryptor pw) ∧
      (EnsureAuthenticated ci p).1.stdin = rest := by
  simp [EnsureAuthenticated, hfile, hpw, hin, Scanln, hacc]

/-- The sibling `ensureAuthenticated` on the same first call stores the scanned
password in the package-level variable. -/
theorem sibling_ensureAuthenticated_first_call {E : Type} (ci : Cipher E) (p : Process E)
    (pw : String) (rest : List String) (hfile : p.file.isSome = true)
    (hpw : p.masterPassword = "") (hin : p.stdin = pw :: rest)
    (hacc : ci.EncryptErr (ci.NewEncryptor pw) "test" = false) :
    (ensureAuthenticated ci p).2 = true ∧
      (ensureAuthenticated ci p).1.masterPassword = pw ∧
      (ensureAuthenticated ci p).1.encryptor = some (ci.NewEncryptor pw) ∧
      (ensureAuthenticated ci p).1.stdin = rest := by
  simp [ensureAuthenticated, hfile, hpw, hin, Scanln, hacc]

/-- C8 fails on the code: with a vault on disk, nothing cached and the accepted
password correcthorse on input, EnsureAuthenticated returns the empty string
with ok true and leaves the cached master password empty (only the encryptor
is cached), so a second call reads the next input line again; the sibling
ensureAuthenticated of commands.go caches the password and its second call
reads nothing. -/
theorem C8_EnsureAuthenticated_returns_empty_password :
    (EnsureAuthenticated specCipher
        (InitializeCLI (some NewConfig) ["correcthorse", "next-line"])).2 = ("", true) ∧
      (EnsureAuthenticated specCipher
        (InitializeCLI (some NewConfig) ["correcthorse", "next-line"])).1.masterPassword = "" ∧
      (EnsureAuthenticated specCipher
        (InitializeCLI (some NewConfig) ["correcthorse", "next-line"])).1.encryptor
          = some "correcthorse" ∧
      (EnsureAuthenticated specCipher
        (InitializeCLI (some NewConfig) ["correcthorse", "next-line"])).1.stdin
          = ["next-line"] ∧
      (EnsureAuthenticated specCipher
        (EnsureAuthenticated specCipher
          (InitializeCLI (some NewConfig) ["correcthorse", "next-line"])).1).1.stdin = [] ∧
      (EnsureAuthenticated specCipher
        (EnsureAuthenticated specCipher
          (InitializeCLI (some NewConfig) ["correcthorse", "next-line"])).1).2 = ("", true) ∧
      (ensureAuthenticated specCipher
        (InitializeCLI (some NewConfig) ["correcthorse", "next-line"])).1.masterPassword
          = "correcthorse" ∧
      (ensureAuthenticated specCipher
        (ensureAuthenticated specCipher
          (InitializeCLI (some NewConfig) ["correcthorse", "next-line"])).1).1.stdin
          = ["next-line"] := by
  decide

/-! ## C9 -/

/-- Neither authentication function looks at the stored master hash: replacing
it, in the loaded configuration and in the file, changes neither the returned
value nor the cached password and encryptor. -/
theorem EnsureAuthenticated_ignores_MasterHash {E : Type} (ci : Cipher E) (p : Process E)
    (hash : String) :
    (EnsureAuthenticated ci
        { p with cfg := p.cfg.SetMasterHash hash,
                 file := p.file.map (fun f => f.SetMasterHash hash) }).2
        = (EnsureAuthenticated ci p).2 ∧
      (EnsureAuthenticated ci
        { p with cfg := p.cfg.SetMasterHash hash,
                 file := p.file.map (fun f => f.SetMasterHash hash) }).1.encryptor
        = (EnsureAuthenticated ci p).1.encryptor ∧
      (ensureAuthenticated ci
        { p with cfg := p.cfg.SetMasterHash hash,
                 file := p.file.map (fun f => f.SetMasterHash hash) }).2
        = (ensureAuthenticated ci p).2 ∧
      (ensureAuthenticated ci
        { p with cfg := p.cfg.SetMasterHash hash,
                 file := p.file.map (fun f => f.SetMasterHash hash) }).1.encryptor
        = (ensureAuthenticated ci p).1.encryptor := by
  unfold EnsureAuthenticated ensureAuthenticated
  cases hf : p.file <;> by_cases hpw : p.masterPassword = "" <;>
    by_cases herr : ci.EncryptErr (ci.NewEncryptor (Scanln p.stdin).1) "test" = true <;>
    simp [hf, hpw, herr]

/-- The outcome of `EnsureAuthenticated` and of `ensureAuthenticated` on a
candidate q is the same on the vault of every master password: a cipher under
which q opens its own vault lets q open every vault. -/
theorem EnsureAuthenticated_same_for_every_vault {E : Type} (ci : Cipher E)
    (sha256hex : String → String) (p1 p2 q : String) :
    (EnsureAuthenticated ci (InitializeCLI (some (NewConfig.SetMasterHash (sha256hex p1))) [q])).2
        = (EnsureAuthenticated ci
            (InitializeCLI (some (NewConfig.SetMasterHash (sha256hex p2))) [q])).2 ∧
      (ensureAuthenticated ci (InitializeCLI (some (NewConfig.SetMasterHash (sha256hex p1))) [q])).2
        = (ensureAuthenticated ci
            (InitializeCLI (some (NewConfig.SetMasterHash (sha256hex p2))) [q])).2 := by
  unfold EnsureAuthenticated ensureAuthenticated InitializeCLI
  by_cases herr : ci.EncryptErr (ci.NewEncryptor q) "test" = true <;> simp [Scanln, herr]

/-- C9 fails on the code: a vault initialised by InitCommand with the password
correcthorse stores the hash of correcthorse; in a later run the candidate
wrongpass is accepted by EnsureAuthenticated and by ensureAuthenticated (ok
true) and its encryptor is cached, whatever the hash function. -/
theorem C9_wrong_password_accepted (sha256hex : String → String) :
    (InitCommand sha256hex false
        (InitializeCLI none ["correcthorse", "correcthorse"] : Process String)).file
        = some (NewConfig.SetMasterHash (sha256hex "correcthorse")) ∧
      (EnsureAuthenticated specCipher
        (InitializeCLI (some (NewConfig.SetMasterHash (sha256hex "correcthorse")))
          ["wrongpass"])).2.2 = true ∧
      (EnsureAuthenticated specCipher
        (InitializeCLI (some (NewConfig.SetMasterHash (sha256hex "correcthorse")))
          ["wrongpass"])).1.encryptor = some "wrongpass" ∧
      (ensureAuthenticated specCipher
        (InitializeCLI (some (NewConfig.SetMasterHash (sha256hex "correcthorse")))
          ["wrongpass"])).2 = true ∧
      (ensureAuthenticated specCipher
        (InitializeCLI (some (NewConfig.SetMasterHash (sha256hex "correcthorse")))
          ["wrongpass"])).1.encryptor = some "wrongpass" := by
  exact ⟨rfl, rfl, rfl, rfl, rfl⟩

/-! ## C10 -/

/-- When no vault exists and two lines are on input, InitCommand stores the
master hash and writes the file exactly when the password has at least 8
bytes and the confirmation equals it; otherwise the loaded configuration is
untouched. -/
theorem InitCommand_accepts_iff {E : Type} (sha256hex : String → String) (p : Process E)
    (password confirm : String) (rest : List String) (hfile : p.file = none)
    (hin : p.stdin = password :: confirm :: rest) :
    ((InitCommand sha256hex false p).file = some (p.cfg.SetMasterHash (sha256hex password)) ↔
        8 ≤ password.utf8ByteSize ∧ password = confirm) ∧
      (¬ (8 ≤ password.utf8ByteSize ∧ password = confirm) →
        (InitCommand sha256hex false p).file = none ∧ (InitCommand sha256hex false p).cfg = p.cfg) := by
  unfold InitCommand
  by_cases hlen : password.utf8ByteSize < 8
  · have h8 : ¬ 8 ≤ password.utf8ByteSize := Nat.not_le.2 hlen
    simp [hfile, hin, Scanln, hlen, h8]
  · have h8 : 8 ≤ password.utf8ByteSize := Nat.not_lt.1 hlen
    by_cases hc : password = confirm
    · subst hc
      simp [hfile, hin, Scanln, hlen, h8, Save]
    · simp [hfile, hin, Scanln, hlen, h8, hc, Save]

/-- C10 fails on the code: with no vault, the password of five characters
e-acute (ten bytes in UTF-8), confirmed, passes the length check, which
compares the byte length with 8; the master hash is set and the file saved. -/
theorem C10_five_character_password_accepted (sha256hex : String → String) :
    "ééééé".length = 5 ∧ "ééééé".utf8ByteSize = 10 ∧
      (InitCommand sha256hex false
        (InitializeCLI none ["ééééé", "ééééé"] : Process String)).file
        = some (NewConfig.SetMasterHash (sha256hex "ééééé")) ∧
      (InitCommand sha256hex false
        (InitializeCLI none ["ééééé", "ééééé"] : Process String)).cfg.MasterHash
        = sha256hex "ééééé" := by
  exact ⟨by decide, by decide, rfl, rfl⟩

/-! ## Lemmas on first occurrences -/

theorem find?_first_split {α : Type} (p : α → Bool) (l : List α) (h : ∃ r ∈ l, p r = true) :
    ∃ pre a post, l = pre ++ a :: post ∧ p a = true ∧ (∀ r ∈ pre, p r = false) ∧
      l.find? p = some a := by
  cases hfind : l.find? p with
  | none =>
    obtain ⟨r, hr, hpr⟩ := h
    exact absurd hpr (List.find?_eq_none.1 hfind r hr)
  | some a =>
    obtain ⟨hpa, pre, post, hl, hpre⟩ := List.find?_eq_some.1 hfind
    refine ⟨pre, a, post, hl, hpa, ?_, rfl⟩
    intro r hr
    simpa using hpre r hr

theorem firstID_split (l : List Host) (id : String) (host : Host)
    (h : ∃ r ∈ l, r.ID = id) :
    ∃ pre old post, l = pre ++ old :: post ∧ old.ID = id ∧ (∀ r ∈ pre, r.ID ≠ id) ∧
      replaceFirstID l id host = pre ++ host :: post ∧ eraseFirstID l id = pre ++ post := by
  induction l with
  | nil =>
    obtain ⟨r, hr, _⟩ := h
    cases hr
  | cons a t ih =>
    by_cases hid : a.ID = id
    · have h1 : replaceFirstID (a :: t) id host = [] ++ host :: t := by
        simp [replaceFirstID, hid]
      have h2 : eraseFirstID (a :: t) id = [] ++ t := by
        simp [eraseFirstID, hid]
      exact ⟨[], a, t, rfl, hid, fun r hr => absurd hr (List.not_mem_nil r), h1, h2⟩
    · have ht : ∃ r ∈ t, r.ID = id := by
        obtain ⟨r, hr, hrid⟩ := h
        rcases List.mem_cons.1 hr with h1 | h1
        · exact absurd (h1 ▸ hrid) hid
        · exact ⟨r, h1, hrid⟩
      obtain ⟨pre, old, post, hl, hold, hpre, hrep, hera⟩ := ih ht
      have h1 : replaceFirstID (a :: t) id host = (a :: pre) ++ host :: post := by
        simp [replaceFirstID, hid, hrep]
      have h2 : eraseFirstID (a :: t) id = (a :: pre) ++ post := by
        simp [eraseFirstID, hid, hera]
      have h3 : a :: t = (a :: pre) ++ old :: post := by
        simp [hl]
      refine ⟨a :: pre, old, post, h3, hold, ?_, h1, h2⟩
      intro r hr
      rcases List.mem_cons.1 hr with h1 | h1
      · exact h1 ▸ hid
      · exact hpre r h1

theorem addHosts_ListHosts (hosts : List Host) (c0 c : Config)
    (h : addHosts c0 hosts = some c) : c.ListHosts = c0.ListHosts ++ hosts := by
  induction hosts generalizing c0 with
  | nil =>
    simp only [addHosts, Option.some.injEq] at h
    simp [h]
  | cons host rest ih =>
    unfold addHosts at h
    unfold Config.AddHost at h
    by_cases hany : c0.Hosts.any (fun r => r.Alias == host.Alias) = true
    · simp [hany] at h
    · simp only [hany, Bool.false_eq_true, if_false] at h
      have := ih _ h
      simpa [Config.ListHosts] using this

/-! ## C11 -/

/-- C11: GetHostByAlias returns ErrHostNotFound exactly when no stored host has
the alias, and otherwise returns the first stored host with that alias (every
host before it has another alias); GetHostByID does the same on IDs. -/
theorem C11_lookup_returns_first (c : Config) (k : String) :
    (c.GetHostByAlias k = Except.error ConfigError.ErrHostNotFound ↔
        ∀ r ∈ c.Hosts, r.Alias ≠ k) ∧
      ((∃ r ∈ c.Hosts, r.Alias = k) →
        ∃ pre host post, c.Hosts = pre ++ host :: post ∧ host.Alias = k ∧
          (∀ r ∈ pre, r.Alias ≠ k) ∧ c.GetHostByAlias k = Except.ok host) ∧
      (c.GetHostByID k = Except.error ConfigError.ErrHostNotFound ↔
        ∀ r ∈ c.Hosts, r.ID ≠ k) ∧
      ((∃ r ∈ c.Hosts, r.ID = k) →
        ∃ pre host post, c.Hosts = pre ++ host :: post ∧ host.ID = k ∧
          (∀ r ∈ pre, r.ID ≠ k) ∧ c.GetHostByID k = Except.ok host) := by
  have hA : (∃ r ∈ c.Hosts, r.Alias = k) →
      ∃ pre host post, c.Hosts = pre ++ host :: post ∧ host.Alias = k ∧
        (∀ r ∈ pre, r.Alias ≠ k) ∧ c.GetHostByAlias k = Except.ok host := by
    rintro ⟨r, hr, hrk⟩
    obtain ⟨pre, a, post, hl, hpa, hpre, hfind⟩ :=
      find?_first_split (fun h : Host => h.Alias == k) c.Hosts ⟨r, hr, by simp [hrk]⟩
    refine ⟨pre, a, post, hl, by simpa using hpa, ?_, by simp [Config.GetHostByAlias, hfind]⟩
    intro x hx
    simpa using hpre x hx
  have hI : (∃ r ∈ c.Hosts, r.ID = k) →
      ∃ pre host post, c.Hosts = pre ++ host :: post ∧ host.ID = k ∧
        (∀ r ∈ pre, r.ID ≠ k) ∧ c.GetHostByID k = Except.ok host := by
    rintro ⟨r, hr, hrk⟩
    obtain ⟨pre, a, post, hl, hpa, hpre, hfind⟩ :=
      find?_first_split (fun h : Host => h.ID == k) c.Hosts ⟨r, hr, by simp [hrk]⟩
    refine ⟨pre, a, post, hl, by simpa using hpa, ?_, by simp [Config.GetHostByID, hfind]⟩
    intro x hx
    simpa using hpre x hx
  refine ⟨?_, hA, ?_, hI⟩
  · constructor
    · intro herr r hr hrk
      obtain ⟨_, host, _, _, _, _, hok⟩ := hA ⟨r, hr, hrk⟩
      rw [hok] at herr
      cases herr
    · intro hnone
      have hfind : c.Hosts.find? (fun h => h.Alias == k) = none := by
        rw [List.find?_eq_none]
        intro r hr
        simpa using hnone r hr
      simp [Config.GetHostByAlias, hfind]
  · constructor
    · intro herr r hr hrk
      obtain ⟨_, host, _, _, _, _, hok⟩ := hI ⟨r, hr, hrk⟩
      rw [hok] at herr
      cases herr
    · intro hnone
      have hfind : c.Hosts.find? (fun h => h.ID == k) = none := by
        rw [List.find?_eq_none]
        intro r hr
        simpa using hnone r hr
      simp [Config.GetHostByID, hfind]

/-! ## C12 -/

/-- C12: when AddHost succeeds, ListHosts afterwards is the former list
followed by the added host; and when a sequence of adds from the empty
registry all succeed, ListHosts is the sequence in the order of the adds. -/
theorem C12_AddHost_appends_in_order :
    (∀ (c : Config) (host : Host), (c.AddHost host).2 = none →
        (c.AddHost host).1.ListHosts = c.ListHosts ++ [host]) ∧
      (∀ (hosts : List Host) (c : Config), addHosts NewConfig hosts = some c →
        c.ListHosts = hosts) := by
  constructor
  · intro c host hok
    unfold Config.AddHost at hok ⊢
    by_cases hany : c.Hosts.any (fun h => h.Alias == host.Alias) = true
    · simp [hany] at hok
    · simp [hany, Config.ListHosts]
  · intro hosts c h
    simpa [NewConfig, Config.ListHosts] using addHosts_ListHosts hosts NewConfig c h

/-- C12 at three adds with distinct aliases from the empty registry. -/
theorem C12_AddHost_appends_witness :
    (addHosts NewConfig [mkHost "1" "web1", mkHost "2" "db1", mkHost "3" "api1"]).isSome = true ∧
      ∀ c, addHosts NewConfig [mkHost "1" "web1", mkHost "2" "db1", mkHost "3" "api1"] = some c →
        c.ListHosts = [mkHost "1" "web1", mkHost "2" "db1", mkHost "3" "api1"] :=
  ⟨by decide, fun c h => C12_AddHost_appends_in_order.2 _ c h⟩

/-! ## C13 -/

/-- C13: called with no prefix or with an empty first prefix, GetHostSuggestions
returns the aliases of the stored hosts, one per host in the order of
ListHosts, whatever the fuzzy matcher is. -/
theorem C13_suggestions_without_prefix (find : String → List String → List Match)
    (ToLower : String → String) (cfg : Config) :
    GetHostSuggestions find ToLower cfg [] = some (cfg.ListHosts.map (fun h => h.Alias)) ∧
      (∀ rest, GetHostSuggestions find ToLower cfg ("" :: rest)
        = some (cfg.ListHosts.map (fun h => h.Alias))) ∧
      (cfg.ListHosts.map (fun h => h.Alias)).length = cfg.ListHosts.length := by
  refine ⟨rfl, fun rest => ?_, by simp⟩
  simp [GetHostSuggestions]

/-! ## C15 -/

/-- C15: UpdateHost, successful or not, leaves the sequence of IDs and the
number of hosts as they were; when it succeeds, the first host whose ID is
that of the argument is replaced by the argument and every other position,
like the rest of the configuration, is unchanged. -/
theorem C15_UpdateHost_frame (c : Config) (host : Host) :
    (c.UpdateHost host).1.Hosts.map (fun h => h.ID) = c.Hosts.map (fun h => h.ID) ∧
      (c.UpdateHost host).1.Hosts.length = c.Hosts.length ∧
      ((c.UpdateHost host).2 = none →
        ∃ pre old post, c.Hosts = pre ++ old :: post ∧ old.ID = host.ID ∧
          (∀ r ∈ pre, r.ID ≠ host.ID) ∧
          (c.UpdateHost host).1 = { c with Hosts := pre ++ host :: post }) := by
  unfold Config.UpdateHost
  by_cases hany : c.Hosts.any (fun h => h.Alias == host.Alias && h.ID != host.ID) = true
  · simp [hany]
  · cases hidx : indexOfID c.Hosts host.ID with
    | none => simp [hany]
    | some i =>
      have hex : ∃ r ∈ c.Hosts, r.ID = host.ID :=
        (indexOfID_isSome_iff c.Hosts host.ID).1 ⟨i, hidx⟩
      obtain ⟨pre, old, post, hl, hold, hpre, hrep, _⟩ :=
        firstID_split c.Hosts host.ID host hex
      have hset := set_indexOfID c.Hosts host.ID host i hidx
      simp only [hany, Bool.false_eq_true, if_false, hset]
      refine ⟨map_ID_replaceFirstID c.Hosts host, ?_, fun _ => ⟨pre, old, post, hl, hold, hpre, ?_⟩⟩
      · rw [hrep, hl]
        simp
      · rw [hrep]

/-! ## C16 -/

/-- C16: DeleteHost returns ErrHostNotFound exactly when no stored host has the
ID, and then leaves the configuration unchanged; otherwise it succeeds and the
new hosts are the old ones without the first host carrying the ID, the others
unchanged and in their order. -/
theorem C16_DeleteHost_removes_first (c : Config) (id : String) :
    ((c.DeleteHost id).2 = some ConfigError.ErrHostNotFound ↔ ∀ r ∈ c.Hosts, r.ID ≠ id) ∧
      ((c.DeleteHost id).2 = some ConfigError.ErrHostNotFound → (c.DeleteHost id).1 = c) ∧
      ((∃ r ∈ c.Hosts, r.ID = id) →
        (c.DeleteHost id).2 = none ∧
          ∃ pre old post, c.Hosts = pre ++ old :: post ∧ old.ID = id ∧
            (∀ r ∈ pre, r.ID ≠ id) ∧
            (c.DeleteHost id).1 = { c with Hosts := pre ++ post }) := by
  unfold Config.DeleteHost
  cases hidx : indexOfID c.Hosts id with
  | none =>
    have hnone := (indexOfID_eq_none_iff c.Hosts id).1 hidx
    refine ⟨⟨fun _ => hnone, fun _ => rfl⟩, fun _ => rfl, ?_⟩
    rintro ⟨r, hr, hrid⟩
    exact absurd hrid (hnone r hr)
  | some i =>
    have hex : ∃ r ∈ c.Hosts, r.ID = id := (indexOfID_isSome_iff c.Hosts id).1 ⟨i, hidx⟩
    obtain ⟨pre, old, post, hl, hold, hpre, _, hera⟩ := firstID_split c.Hosts id (mkHost id "") hex
    refine ⟨⟨fun h => Option.noConfusion h, ?_⟩, fun h => Option.noConfusion h, ?_⟩
    · intro hnone
      obtain ⟨r, hr, hrid⟩ := hex
      exact absurd hrid (hnone r hr)
    · intro _
      refine ⟨rfl, pre, old, post, hl, hold, hpre, ?_⟩
      simp only [take_drop_indexOfID c.Hosts id i hidx, hera]

/-! ## C17 -/

/-- C17: on a registry with hosts and a query that is no stored alias, when the
fuzzy matcher returns a list whose first element has an index within the
alias list, findHostByAlias returns the host stored at that index (the lookup
is in range), and its result depends on the registry only through Hosts. -/
theorem C17_fuzzy_first_match (find : String → List String → List Match) (cfg : Config)
    (q : String) (m : Match) (rest : List Match) (hne : cfg.Hosts ≠ [])
    (hq : ∀ r ∈ cfg.Hosts, r.Alias ≠ q)
    (hm : find q (cfg.Hosts.map (fun h => h.Alias)) = m :: rest)
    (hlo : 0 ≤ m.Index) (hhi : m.Index < ((cfg.Hosts.map (fun h => h.Alias)).length : Int)) :
    (∃ host, cfg.Hosts.get? m.Index.toNat = some host ∧
        findHostByAlias find cfg q = FindResult.ok host) ∧
      ∀ cfg2 : Config, cfg2.Hosts = cfg.Hosts →
        findHostByAlias find cfg2 q = findHostByAlias find cfg q := by
  constructor
  · obtain ⟨e, he⟩ := (GetHostByAlias_error_iff cfg q).2 hq
    have hlen : ¬ cfg.Hosts.length = 0 := fun h => hne (List.length_eq_zero.1 h)
    have hidx : m.Index.toNat < cfg.Hosts.length := by
      have : (m.Index.toNat : Int) = m.Index := Int.toNat_of_nonneg hlo
      simp only [List.length_map] at hhi
      omega
    have hneg : ¬ m.Index < 0 := by omega
    cases hget : cfg.Hosts.get? m.Index.toNat with
    | none =>
      have := List.get?_eq_none.1 hget
      omega
    | some host =>
      refine ⟨host, rfl, ?_⟩
      simp only [findHostByAlias, he, Config.ListHosts, hlen, if_false, hm, hneg, hget]
  · intro cfg2 h2
    simp only [findHostByAlias, Config.GetHostByAlias, Config.ListHosts, h2]

/-- C17 at the aliases prod-db, prod-api, staging, the query prod and a matcher
that ranks index 1 first: the host prod-api is returned. -/
theorem C17_fuzzy_first_match_witness :
    findHostByAlias secondFirst
        (registryOf [mkHost "1" "prod-db", mkHost "2" "prod-api", mkHost "3" "staging"])
        "prod" = FindResult.ok (mkHost "2" "prod-api") ∧
      ∃ host, (registryOf
          [mkHost "1" "prod-db", mkHost "2" "prod-api", mkHost "3" "staging"]).Hosts.get? 1
          = some host ∧
        findHostByAlias secondFirst
          (registryOf [mkHost "1" "prod-db", mkHost "2" "prod-api", mkHost "3" "staging"])
          "prod" = FindResult.ok host :=
  ⟨by decide,
    (C17_fuzzy_first_match secondFirst
      (registryOf [mkHost "1" "prod-db", mkHost "2" "prod-api", mkHost "3" "staging"])
      "prod" { Str := "prod-api", Index := 1, MatchedIndexes := [], Score := 0 } []
      (by decide) (by decide) (by decide) (by decide) (by decide)).1⟩

/-! ## Lemmas on splitting and on decimal numerals -/

theorem splitChars_of_not_mem (sep : Char) (l : List Char) (h : sep ∉ l) :
    splitChars sep l = [l] := by
  induction l with
  | nil => rfl
  | cons c cs ih =>
    have hc : ¬ c = sep := fun e => h (e ▸ List.mem_cons_self _ _)
    have hcs : sep ∉ cs := fun m => h (List.mem_cons_of_mem _ m)
    simp [splitChars, hc, ih hcs]

theorem splitChars_append_sep (sep : Char) (a b : List Char) (h : sep ∉ a) :
    splitChars sep (a ++ sep :: b) = a :: splitChars sep b := by
  induction a with
  | nil => simp [splitChars]
  | cons c cs ih =>
    have hc : ¬ c = sep := fun e => h (e ▸ List.mem_cons_self _ _)
    have hcs : sep ∉ cs := fun m => h (List.mem_cons_of_mem _ m)
    simp [splitChars, hc, ih hcs]

theorem digitChar_decimal (k : Nat) (hk : k < 10) :
    isDecimalDigit (Nat.digitChar k) = true ∧ (Nat.digitChar k).toNat - 48 = k := by
  interval_cases k <;> exact ⟨by decide, by decide⟩

theorem parseDigits_append_singleton (xs : List Char) (d : Char) :
    parseDigits (xs ++ [d]) = 10 * parseDigits xs + (d.toNat - 48) := by
  simp [parseDigits, List.foldl_append]

theorem toDigitsCore_append (fuel n : Nat) (ds : List Char) :
    Nat.toDigitsCore 10 fuel n ds = Nat.toDigitsCore 10 fuel n [] ++ ds := by
  induction fuel generalizing n ds with
  | zero => simp [Nat.toDigitsCore]
  | succ f ih =>
    simp only [Nat.toDigitsCore]
    by_cases h0 : n / 10 = 0
    · simp [h0]
    · simp only [h0, if_false]
      rw [ih (n / 10) (Nat.digitChar (n % 10) :: ds), ih (n / 10) [Nat.digitChar (n % 10)]]
      simp

theorem toDigitsCore_decimal (fuel n : Nat) (h : n < fuel) :
    (∀ c ∈ Nat.toDigitsCore 10 fuel n [], isDecimalDigit c = true) ∧
      parseDigits (Nat.toDigitsCore 10 fuel n []) = n ∧
      Nat.toDigitsCore 10 fuel n [] ≠ [] := by
  induction fuel generalizing n with
  | zero => omega
  | succ f ih =>
    have hd := digitChar_decimal (n % 10) (Nat.mod_lt n (by decide))
    simp only [Nat.toDigitsCore]
    by_cases h0 : n / 10 = 0
    · simp only [h0, if_true]
      refine ⟨?_, ?_, by simp⟩
      · intro c hc
        rw [List.mem_singleton.1 hc]
        exact hd.1
      · have hmod : n % 10 = n := by omega
        have hval := hd.2
        rw [hmod] at hval
        simp [parseDigits, hmod, hval]
    · simp only [h0, if_false]
      have hlt : n / 10 < f := by omega
      obtain ⟨h1, h2, _⟩ := ih (n / 10) hlt
      rw [toDigitsCore_append f (n / 10) [Nat.digitChar (n % 10)]]
      refine ⟨?_, ?_, by simp⟩
      · intro c hc
        rcases List.mem_append.1 hc with hc1 | hc1
        · exact h1 c hc1
        · rw [List.mem_singleton.1 hc1]
          exact hd.1
      · rw [parseDigits_append_singleton, h2, hd.2]
        omega

theorem toString_nat_decimal (m : Nat) :
    (∀ c ∈ (toString m).data, isDecimalDigit c = true) ∧
      parseDigits (toString m).data = m ∧ (toString m).data ≠ [] :=
  toDigitsCore_decimal (m + 1) m (Nat.lt_succ_self m)

theorem decimalDigit_range (c : Char) (h : isDecimalDigit c = true) :
    48 ≤ c.toNat ∧ c.toNat ≤ 57 := by
  simpa [isDecimalDigit] using h

theorem decimalDigit_ne (c d : Char) (h : isDecimalDigit c = true)
    (hd : d.toNat < 48 ∨ 57 < d.toNat) : c ≠ d := by
  intro e
  have hr := decimalDigit_range c h
  rw [e] at hr
  omega

theorem decimalDigit_not_space (c : Char) (h : isDecimalDigit c = true) :
    isSpace c = false := by
  have hr := decimalDigit_range c h
  have h1 : ¬ (c.toNat ≤ 13) := by omega
  have h2 : ¬ (c.toNat = 32) := by omega
  have h3 : ¬ (133 = c.toNat) ∧ ¬ (c.toNat = 133) := by omega
  have h4 : ¬ (c.toNat = 160) := by omega
  have h5 : ¬ (c.toNat = 5760) := by omega
  have h6 : ¬ (8192 ≤ c.toNat) := by omega
  have h7 : ¬ (c.toNat = 8232) ∧ ¬ (c.toNat = 8233) ∧ ¬ (c.toNat = 8239) ∧
      ¬ (c.toNat = 8287) ∧ ¬ (c.toNat = 12288) := by omega
  simp [isSpace, h1, h2, h3, h4, h5, h6, h7]

theorem takeWhile_decimal (ds : List Char) (hall : ∀ c ∈ ds, isDecimalDigit c = true) :
    ds.takeWhile isDecimalDigit = ds :=
  List.takeWhile_eq_self_iff.2 hall

theorem Sscanf_d_digits (ds : List Char) (hall : ∀ c ∈ ds, isDecimalDigit c = true)
    (hne : ds ≠ []) (hr : parseDigits ds ≤ 9223372036854775807) :
    Sscanf_d ds = some (parseDigits ds : Int) := by
  cases ds with
  | nil => exact absurd rfl hne
  | cons c cs =>
    have hc := hall c (List.mem_cons_self _ _)
    have hnl : ¬ c = '\n' := decimalDigit_ne c '\n' hc (Or.inl (by decide))
    have hplus : ¬ c = '+' := decimalDigit_ne c '+' hc (Or.inl (by decide))
    have hminus : ¬ c = '-' := decimalDigit_ne c '-' hc (Or.inl (by decide))
    have hsp := decimalDigit_not_space c hc
    have htw := takeWhile_decimal (c :: cs) hall
    have hskip : skipSpace (c :: cs) = some (c :: cs) := by
      simp [skipSpace, hnl, hsp]
    have hlo : (-9223372036854775808 : Int) ≤ (parseDigits (c :: cs) : Int) := by omega
    have hhi : (parseDigits (c :: cs) : Int) ≤ 9223372036854775807 := by omega
    simp only [Sscanf_d, hskip, hplus, hminus, or_self, if_false, htw, decide_False,
      Bool.false_eq_true, hlo, hhi, and_self, if_true]
    simp

theorem Sscanf_d_minus_digits (ds : List Char) (hall : ∀ c ∈ ds, isDecimalDigit c = true)
    (hne : ds ≠ []) (hr : parseDigits ds ≤ 9223372036854775808) :
    Sscanf_d ('-' :: ds) = some (-(parseDigits ds : Int)) := by
  have hskip : skipSpace ('-' :: ds) = some ('-' :: ds) := by
    have h1 : isSpace '-' = false := by decide
    have h2 : ¬ '-' = '\n' := by decide
    simp [skipSpace, h1, h2]
  have htw := takeWhile_decimal ds hall
  have hlo : (-9223372036854775808 : Int) ≤ -(parseDigits ds : Int) := by omega
  have hhi : -(parseDigits ds : Int) ≤ 9223372036854775807 := by omega
  simp only [Sscanf_d, hskip, or_true, if_true, htw, hne, if_false, decide_True, hlo, hhi,
    and_self]

theorem toString_int_decimal (n : Int) (hlo : -9223372036854775808 ≤ n)
    (hhi : n ≤ 9223372036854775807) :
    Sscanf_d (toString n).data = some n ∧
      ∀ c ∈ (toString n).data, c = '-' ∨ isDecimalDigit c = true := by
  cases n with
  | ofNat m =>
    obtain ⟨hall, hval, hne⟩ := toString_nat_decimal m
    have hdata : (toString (Int.ofNat m)).data = (toString m).data := rfl
    rw [hdata]
    refine ⟨?_, fun c hc => Or.inr (hall c hc)⟩
    have hm : m ≤ 9223372036854775807 := by
      have : (Int.ofNat m) = (m : Int) := rfl
      omega
    have hs := Sscanf_d_digits (toString m).data hall hne (by rw [hval]; exact hm)
    rw [hs, hval]
    rfl
  | negSucc m =>
    obtain ⟨hall, hval, hne⟩ := toString_nat_decimal (m + 1)
    have hdata : (toString (Int.negSucc m)).data = '-' :: (toString (m + 1)).data := rfl
    rw [hdata]
    constructor
    · have hm : m + 1 ≤ 9223372036854775808 := by
        have : Int.negSucc m = -((m : Int) + 1) := rfl
        omega
      have hs := Sscanf_d_minus_digits (toString (m + 1)).data hall hne (by rw [hval]; exact hm)
      rw [hs, hval]
      rfl
    · intro c hc
      rcases List.mem_cons.1 hc with h1 | h1
      · exact Or.inl h1
      · exact Or.inr (hall c h1)

theorem numeral_char_ne (P : List Char) (d : Char)
    (hP : ∀ c ∈ P, c = '-' ∨ isDecimalDigit c = true) (hd1 : d ≠ '-')
    (hd2 : d.toNat < 48 ∨ 57 < d.toNat) : d ∉ P := by
  intro hmem
  rcases hP d hmem with h | h
  · exact hd1 h
  · exact decimalDigit_ne d d h hd2 rfl

/-- ParseHostString on `user@host:numeral` and on `user@host`, for a user
without `@`, a non-empty host without `@` and `:`, and a numeral made of an
optional minus sign and digits that scans to n. -/
theorem ParseHostString_of_parts (u h : String) (P : List Char) (n : Int)
    (hu : '@' ∉ u.data) (hne : h ≠ "") (hh1 : '@' ∉ h.data) (hh2 : ':' ∉ h.data)
    (hP : ∀ c ∈ P, c = '-' ∨ isDecimalDigit c = true) (hscan : Sscanf_d P = some n) :
    ParseHostString (u ++ "@" ++ h ++ ":" ++ String.mk P) = (h, u, n, none) ∧
      ParseHostString (u ++ "@" ++ h) = (h, u, 22, none) := by
  have hPat : '@' ∉ P := numeral_char_ne P '@' hP (by decide) (Or.inr (by decide))
  have hPcolon : ':' ∉ P := numeral_char_ne P ':' hP (by decide) (Or.inr (by decide))
  have hhost : ¬ (h = "") := hne
  constructor
  · have hdata : (u ++ "@" ++ h ++ ":" ++ String.mk P).data
        = u.data ++ '@' :: (h.data ++ ':' :: P) := by
      simp [String.data_append]
    have hrest : '@' ∉ h.data ++ ':' :: P := by
      intro hm
      rcases List.mem_append.1 hm with h1 | h1
      · exact hh1 h1
      · rcases List.mem_cons.1 h1 with h2 | h2
        · exact absurd h2 (by decide)
        · exact hPat h2
    have hsplit1 : Split (u ++ "@" ++ h ++ ":" ++ String.mk P) '@'
        = [u, String.mk (h.data ++ ':' :: P)] := by
      simp only [Split, hdata, splitChars_append_sep '@' _ _ hu,
        splitChars_of_not_mem '@' _ hrest, List.map_cons, List.map_nil]
    have hsplit2 : Split (String.mk (h.data ++ ':' :: P)) ':' = [h, String.mk P] := by
      simp only [Split, splitChars_append_sep ':' _ _ hh2,
        splitChars_of_not_mem ':' _ hPcolon, List.map_cons, List.map_nil]
    simp only [ParseHostString, hsplit1, hsplit2, List.headD_cons, hscan, hhost, if_false]
  · have hdata : (u ++ "@" ++ h).data = u.data ++ '@' :: h.data := by
      simp [String.data_append]
    have hsplit1 : Split (u ++ "@" ++ h) '@' = [u, h] := by
      simp only [Split, hdata, splitChars_append_sep '@' _ _ hu,
        splitChars_of_not_mem '@' _ hh1, List.map_cons, List.map_nil]
    have hsplit2 : Split h ':' = [h] := by
      simp only [Split, splitChars_of_not_mem ':' _ hh2, List.map_cons, List.map_nil]
    simp only [ParseHostString, hsplit1, hsplit2, List.headD_cons, hhost, if_false]

/-! ## C14 -/

/-- C14, as stated, fails for a user that contains an at sign: the string
a@b@h:22 splits at the at signs into three parts, not two, so no user is taken
and the whole of a@b@h is returned as the host with an empty user; likewise
a@b@h without a port. -/
theorem C14_user_with_at_sign :
    ParseHostString ("a@b" ++ "@" ++ "h" ++ ":" ++ toString (22 : Int))
        = ("a@b@h", "", 22, none) ∧
      ParseHostString ("a@b" ++ "@" ++ "h" ++ ":" ++ toString (22 : Int))
        ≠ ("h", "a@b", 22, none) ∧
      ParseHostString ("a@b" ++ "@" ++ "h") = ("a@b@h", "", 22, none) := by
  decide

/-- C14, amended: for every user u containing no at sign, every non-empty host
h containing neither an at sign nor a colon, and every port n in the range of
a Go int written in decimal, ParseHostString of u@h:n returns (h, u, n) with
no error and ParseHostString of u@h returns (h, u, 22) with no error. -/
theorem C14_ParseHostString_roundtrip (u h : String) (n : Int)
    (hu : '@' ∉ u.data) (hne : h ≠ "") (hh1 : '@' ∉ h.data) (hh2 : ':' ∉ h.data)
    (hlo : -9223372036854775808 ≤ n) (hhi : n ≤ 9223372036854775807) :
    ParseHostString (u ++ "@" ++ h ++ ":" ++ toString n) = (h, u, n, none) ∧
      ParseHostString (u ++ "@" ++ h) = (h, u, 22, none) := by
  obtain ⟨hscan, hP⟩ := toString_int_decimal n hlo hhi
  exact ParseHostString_of_parts u h (toString n).data n hu hne hh1 hh2 hP hscan

/-- C14, amended, at the user root, the host example.com and the port 2222. -/
theorem C14_ParseHostString_roundtrip_witness :
    ParseHostString ("root" ++ "@" ++ "example.com" ++ ":" ++ toString (2222 : Int))
        = ("example.com", "root", 2222, none) ∧
      ParseHostString ("root" ++ "@" ++ "example.com") = ("example.com", "root", 22, none) :=
  C14_ParseHostString_roundtrip "root" "example.com" 2222 (by decide) (by decide) (by decide)
    (by decide) (by decide) (by decide)

end Sshmgr
